import Mathlib

/-!
Verification development for the CodeQuest-AI exam application.

The definitions below are a shallow embedding of the TypeScript source:
  * `src/types.ts`                      — the data model,
  * `src/services/geminiService.ts`     — `gradeCodeSubmission`, `generateTestCases`
    and the `ExamInterface` component (answer ledger, timer, auto-submit,
    `isAnswered`, the per-question handlers),
  * `src/App.tsx`                       — the session controller state machine
    and the save/resume protocol over the `codequest_saved_exam` slot,
  * `src/components/ProgressView.tsx`   — the `ResultsView` scorer.

JavaScript `Map` objects are modelled as insertion-ordered association lists,
`undefined`-able fields as `Option`, and the external AI calls as functions of
an explicit outcome parameter (success with a value / empty response / thrown
error).  `JSON.stringify`/`JSON.parse` round-trips of the plain records that
the app persists are modelled as the identity (optional fields that are
`undefined` are dropped by `stringify` and read back as `undefined`, which is
exactly the `Option` model).
-/

namespace CodeQuest

/-! ## Data model (src/types.ts) -/

inductive Difficulty where
  | Beginner | Intermediate | Advanced | Mixed
deriving DecidableEq, Repr

inductive ExamType where
  | Mixed | MCQ | CODE
deriving DecidableEq, Repr

inductive QuestionType where
  | MCQ | CODE
deriving DecidableEq, Repr

inductive CodeLanguage where
  | PYTHON | SQL
deriving DecidableEq, Repr

structure MCQOption where
  id : String
  text : String
deriving DecidableEq, Repr

structure Question where
  id : String
  type : QuestionType
  title : String := ""
  description : String := ""
  difficulty : Difficulty := Difficulty.Beginner
  options : Option (List MCQOption) := none
  correctOptionId : Option String := none
  language : Option CodeLanguage := none
  startingCode : Option String := none
  referenceCode : Option String := none
  testCases : Option (List String) := none
  hints : Option (List String) := none
deriving DecidableEq, Repr

structure ExamConfig where
  topic : String
  difficulty : Difficulty
  questionCount : Nat
  examType : ExamType
  timeLimit : Nat          -- in minutes. 0 implies no limit.
deriving DecidableEq, Repr

structure UserAnswer where
  questionId : String
  selectedOptionId : Option String := none
  code : Option String := none
  isCorrect : Option Bool := none
  feedback : Option String := none
  output : Option String := none
  testInput : Option String := none
deriving DecidableEq, Repr

structure GradingResult where
  passed : Bool
  score : Int
  feedback : String
  output : String
deriving DecidableEq, Repr

inductive AppState where
  | SETUP | LOADING | EXAM | RESULTS | PROGRESS
deriving DecidableEq, Repr, Fintype

/-! ## The answer ledger: a JavaScript `Map<string, UserAnswer>`

Modelled as an insertion-ordered association list.  `Map.set` replaces the
value in place when the key is present and appends a new entry otherwise;
`Map.get` returns the value at the key or `undefined`. -/

abbrev AnswersMap := List (String × UserAnswer)

def mapSet : AnswersMap → String → UserAnswer → AnswersMap
  | [], k, v => [(k, v)]
  | p :: rest, k, v => if p.1 = k then (k, v) :: rest else p :: mapSet rest k v

def mapLookup : AnswersMap → String → Option UserAnswer
  | [], _ => none
  | p :: rest, k => if p.1 = k then some p.2 else mapLookup rest k

/-- `Array.from(map.values())`. -/
def mapValues (m : AnswersMap) : List UserAnswer := m.map Prod.snd

/-- `new Map(list.map(a => [a.questionId, a]))`: the `Map` constructor performs
`set` for each entry in order. -/
def buildAnswersMap (l : List UserAnswer) : AnswersMap :=
  l.foldl (fun m a => mapSet m a.questionId a) []

theorem mapLookup_mapSet_self (m : AnswersMap) (k : String) (v : UserAnswer) :
    mapLookup (mapSet m k v) k = some v := by
  induction m with
  | nil => simp [mapSet, mapLookup]
  | cons p rest ih =>
    by_cases h : p.1 = k
    · simp [mapSet, h, mapLookup]
    · simp [mapSet, h, mapLookup, ih]

theorem mem_mapSet {m : AnswersMap} {k : String} {v : UserAnswer} {p : String × UserAnswer}
    (h : p ∈ mapSet m k v) : p = (k, v) ∨ p ∈ m := by
  induction m with
  | nil => simpa [mapSet] using h
  | cons q rest ih =>
    by_cases hq : q.1 = k
    · simp only [mapSet, if_pos hq, List.mem_cons] at h
      rcases h with h | h
      · exact Or.inl h
      · exact Or.inr (List.mem_cons_of_mem _ h)
    · simp only [mapSet, if_neg hq, List.mem_cons] at h
      rcases h with h | h
      · exact Or.inr (by simp [h])
      · rcases ih h with h' | h'
        · exact Or.inl h'
        · exact Or.inr (List.mem_cons_of_mem _ h')

theorem mapSet_keys (m : AnswersMap) (k : String) (v : UserAnswer) :
    (mapSet m k v).map Prod.fst =
      if k ∈ m.map Prod.fst then m.map Prod.fst else m.map Prod.fst ++ [k] := by
  induction m with
  | nil => simp [mapSet]
  | cons p rest ih =>
    by_cases hp : p.1 = k
    · simp [mapSet, hp]
    · have : k ∈ (p :: rest).map Prod.fst ↔ k ∈ rest.map Prod.fst := by
        simp [List.mem_cons, Ne.symm hp]
      by_cases hk : k ∈ rest.map Prod.fst
      · simp [mapSet, hp, ih, hk, this]
      · simp [mapSet, hp, ih, hk, this, Ne.symm hp]

theorem mapSet_of_not_mem {m : AnswersMap} {k : String} (v : UserAnswer)
    (h : k ∉ m.map Prod.fst) : mapSet m k v = m ++ [(k, v)] := by
  induction m with
  | nil => simp [mapSet]
  | cons p rest ih =>
    simp only [List.map_cons, List.mem_cons] at h
    push_neg at h
    simp [mapSet, Ne.symm h.1, ih h.2]

theorem buildAnswersMap_values (m : AnswersMap)
    (hk : ∀ p ∈ m, p.2.questionId = p.1)
    (hnd : (m.map Prod.fst).Nodup) :
    buildAnswersMap (mapValues m) = m := by
  suffices h : ∀ acc : AnswersMap,
      (∀ p ∈ m, p.1 ∉ acc.map Prod.fst) →
      (mapValues m).foldl (fun m' a => mapSet m' a.questionId a) acc = acc ++ m by
    simpa [buildAnswersMap] using h [] (by simp)
  induction m with
  | nil => intro acc _; simp [mapValues]
  | cons p rest ih =>
    intro acc hdisj
    have hkp : p.2.questionId = p.1 := hk p (List.mem_cons_self _ _)
    have hnotin : p.1 ∉ acc.map Prod.fst := hdisj p (List.mem_cons_self _ _)
    have hstep : mapSet acc p.2.questionId p.2 = acc ++ [(p.1, p.2)] := by
      rw [hkp]; exact mapSet_of_not_mem _ hnotin
    have hnd' : (rest.map Prod.fst).Nodup := (List.nodup_cons.mp (by simpa using hnd)).2
    have hhead : p.1 ∉ rest.map Prod.fst := (List.nodup_cons.mp (by simpa using hnd)).1
    have ih' := ih (fun q hq => hk q (List.mem_cons_of_mem _ hq)) hnd'
      (acc ++ [(p.1, p.2)])
      (by
        intro q hq
        simp only [List.map_append, List.mem_append, List.map_cons, List.mem_singleton]
        push_neg
        refine ⟨hdisj q (List.mem_cons_of_mem _ hq), ?_⟩
        intro hcontra
        have hq1 : q.1 = p.1 := by simpa using hcontra
        exact hhead (hq1 ▸ List.mem_map_of_mem Prod.fst hq)
      )
    calc (mapValues (p :: rest)).foldl (fun m' a => mapSet m' a.questionId a) acc
        = (mapValues rest).foldl (fun m' a => mapSet m' a.questionId a)
            (mapSet acc p.2.questionId p.2) := by simp [mapValues]
      _ = (acc ++ [(p.1, p.2)]) ++ rest := by rw [hstep]; exact ih'
      _ = acc ++ (p :: rest) := by simp

/-! ## External judging call (src/services/geminiService.ts, `gradeCodeSubmission`)

The remote call either succeeds with a parsed `GradingResult`, returns an
empty response (`response.text` falsy, which the source turns into a thrown
`"No grading response"`), or throws (network/parse error).  The `try` body is
modelled by `gradeAttempt`; the surrounding `catch` substitutes the fixed
fallback result. -/

inductive JudgeOutcome where
  | ok (r : GradingResult)
  | noText
  | throws
deriving DecidableEq, Repr

def gradeAttempt : JudgeOutcome → Except String GradingResult
  | .ok r => .ok r
  | .noText => .error "No grading response"
  | .throws => .error "judging call threw"

/-- The `catch` branch of `gradeCodeSubmission`. -/
def fallbackGradingResult : GradingResult :=
  { passed := false
    score := 0
    output := "Error connecting to Judge AI."
    feedback := "System error during grading." }

def gradeCodeSubmission (o : JudgeOutcome) : GradingResult :=
  match gradeAttempt o with
  | .ok r => r
  | .error _ => fallbackGradingResult

/-! ## External test-case generation call (`generateTestCases`) -/

inductive TestGenOutcome where
  | ok (cases : List String)
  | noText
  | noField
  | throws
deriving DecidableEq, Repr

def generateTestCasesCall : TestGenOutcome → List String
  | .ok cases => cases
  | .noText => ["Could not generate test cases."]
  | .noField => ["No test cases returned."]
  | .throws => ["Error generating test cases. Please try again."]

/-! ## Exam engine (`ExamInterface` in src/services/geminiService.ts)

The per-question handlers all key the ledger by `currentQuestion.id` where
`currentQuestion = questions[currentIdx]`. -/

/-- JS `a || b` for strings: an empty string is falsy. -/
def jsOrString (a : Option String) (b : String) : String :=
  match a with
  | some s => if s = "" then b else s
  | none => b

/-- The untouched editor's placeholder text,
`currentQuestion.language === 'sql' ? '-- Start your code here' : '# Start your code here'`. -/
def placeholderCode (q : Question) : String :=
  if q.language = some CodeLanguage.SQL then "-- Start your code here"
  else "# Start your code here"

/-- `handleOptionSelect`: a fresh answer holding only the selected option. -/
def handleOptionSelect (m : AnswersMap) (q : Question) (optId : String) : AnswersMap :=
  mapSet m q.id { questionId := q.id, selectedOptionId := some optId }

/-- `handleCodeChange`: merge the new code text into the existing answer
(`answers.get(id) || { questionId: id }` then spread). -/
def handleCodeChange (m : AnswersMap) (q : Question) (code : String) : AnswersMap :=
  let existing := (mapLookup m q.id).getD { questionId := q.id }
  mapSet m q.id { existing with code := some code }

/-- The source's early-return guard `if (!userCode.trim()) return;`:
the trimmed code is empty exactly when every character is whitespace. -/
def isBlank (s : String) : Bool := s.toList.all Char.isWhitespace

/-- `handleRunCode`: after the early return on blank code, await the judging
call and store code, judged correctness, feedback and output on the answer.
`userCode` is the editor's current value. -/
def handleRunCode (m : AnswersMap) (q : Question) (userCode : String)
    (o : JudgeOutcome) : AnswersMap :=
  if isBlank userCode then m
  else
    let result := gradeCodeSubmission o
    let existing := (mapLookup m q.id).getD { questionId := q.id }
    mapSet m q.id { existing with
      code := some userCode
      isCorrect := some result.passed
      feedback := some result.feedback
      output := some result.output }

/-- `handleResetCode` (confirmed branch): reset the answer's code to
`startingCode || placeholder`. -/
def handleResetCode (m : AnswersMap) (q : Question) : AnswersMap :=
  let existing := (mapLookup m q.id).getD { questionId := q.id }
  mapSet m q.id { existing with
    code := some (jsOrString q.startingCode (placeholderCode q)) }

/-- `handleGenerateTestCases` (the non-busy branch): store the formatted
test-case text on the answer. -/
def handleGenerateTestCases (m : AnswersMap) (q : Question)
    (o : TestGenOutcome) : AnswersMap :=
  let cases := generateTestCasesCall o
  let formattedInput := String.intercalate "\n\n"
    (cases.mapIdx (fun i c => "Case " ++ toString (i + 1) ++ ":\n" ++ c))
  let existing := (mapLookup m q.id).getD { questionId := q.id }
  mapSet m q.id { existing with testInput := some formattedInput }

/-- `isAnswered(qId)`:
`a.selectedOptionId !== undefined || (a.code !== undefined && a.code.length > 5)`. -/
def isAnswered (m : AnswersMap) (qId : String) : Bool :=
  match mapLookup m qId with
  | none => false
  | some a =>
    a.selectedOptionId.isSome ||
      (match a.code with
       | some c => decide (5 < c.length)
       | none => false)

/-! ## Timer and auto-submit (`ExamInterface` effects)

The interval effect advances `elapsed` once per second through
`setElapsed(prev => (timeLimit > 0 && prev >= timeLimit*60) ? prev : prev+1)`;
React skips the re-render when the state is unchanged, so the auto-submit
effect (dependencies `[elapsed, timeLimit]`) re-runs exactly when the tick
changed `elapsed`, and fires `handleSubmitAll` when
`timeLimit > 0 && elapsed >= timeLimit*60`. -/

def tickElapsed (timeLimit elapsed : Nat) : Nat :=
  if 0 < timeLimit ∧ timeLimit * 60 ≤ elapsed then elapsed else elapsed + 1

/-- Run `n` timer ticks from elapsed time `e` with `subs` auto-submissions
fired so far; returns the final elapsed time and auto-submission count. -/
def runTicks (timeLimit : Nat) : Nat → Nat → Nat → Nat × Nat
  | e, subs, 0 => (e, subs)
  | e, subs, n + 1 =>
    let e' := tickElapsed timeLimit e
    let subs' := if e' ≠ e ∧ 0 < timeLimit ∧ timeLimit * 60 ≤ e' then subs + 1 else subs
    runTicks timeLimit e' subs' n

/-- Total number of automatic submissions after mounting with elapsed time
`e0` and then `n` timer ticks: the effect also runs once on mount. -/
def autoSubmitCount (timeLimit e0 n : Nat) : Nat :=
  (if 0 < timeLimit ∧ timeLimit * 60 ≤ e0 then 1 else 0) + (runTicks timeLimit e0 0 n).2

/-! ## Scorer (`ResultsView` in src/components/ProgressView.tsx) -/

/-- Per-answer correctness as computed by `ResultsView`:
the question is looked up by id; MCQ answers compare
`ans.selectedOptionId === q.correctOptionId`, code answers use `!!ans.isCorrect`. -/
def resultsViewCorrect (questions : List Question) (a : UserAnswer) : Bool :=
  match questions.find? (fun q => q.id = a.questionId) with
  | none => false
  | some q =>
    if q.type = QuestionType.MCQ then a.selectedOptionId = q.correctOptionId
    else a.isCorrect = some true

/-- The `let score` accumulation of `ResultsView`: `answers.map(...)` bumping
`score` for each answer graded correct (answers whose question is missing are
returned unchanged and not counted). -/
def resultsScore (questions : List Question) (answers : List UserAnswer) : Nat :=
  answers.foldl
    (fun score ans =>
      match questions.find? (fun q => q.id = ans.questionId) with
      | none => score
      | some q =>
        let isCorrect :=
          if q.type = QuestionType.MCQ then decide (ans.selectedOptionId = q.correctOptionId)
          else decide (ans.isCorrect = some true)
        if isCorrect then score + 1 else score)
    0

/-- JavaScript `Math.round` on a (non-negative, finite) number:
round half toward positive infinity. -/
def jsRound (x : ℚ) : ℤ := ⌊x + 1 / 2⌋

/-- `Math.round((score / questions.length) * 100)`.  With an empty question
set the JavaScript expression divides by zero and produces no number
(`NaN`, or `Infinity` were the score positive); that is modelled as `none`. -/
def resultsPercentage (questions : List Question) (answers : List UserAnswer) :
    Option ℤ :=
  if questions.length = 0 then none
  else some (jsRound ((resultsScore questions answers : ℚ) / (questions.length : ℚ) * 100))

/-! ## Session snapshot: save and resume (src/App.tsx + `ExamInterface` init) -/

/-- The in-memory exam-engine state that save/resume must round-trip. -/
structure ExamState where
  questions : List Question
  currentIdx : Nat
  answers : AnswersMap
  elapsed : Nat
deriving DecidableEq, Repr

/-- The serialized `codequest_saved_exam` record built by `handleSaveExam`. -/
structure SavedExam where
  config : ExamConfig
  questions : List Question
  answers : List UserAnswer
  timeSpent : Nat
  currentIdx : Nat
  savedAt : String
deriving DecidableEq, Repr

/-- `handleSave` in `ExamInterface` (`Array.from(answers.values())`) composed
with `handleSaveExam` in App (stores the record in the snapshot slot). -/
def handleSaveExam (cfg : ExamConfig) (savedAt : String) (s : ExamState) : SavedExam :=
  { config := cfg
    questions := s.questions
    answers := mapValues s.answers
    timeSpent := s.elapsed
    currentIdx := s.currentIdx
    savedAt := savedAt }

/-- JS `n || 0` on a number: `0` is falsy, so this is the identity on `Nat`. -/
def jsOrZero (n : Nat) : Nat := if n = 0 then 0 else n

/-- `handleResumeExam` (App) handing the parsed record to a fresh
`ExamInterface`, whose state initializers are
`useState(initialCurrentIdx || 0)`, `new Map(initialAnswers.map(a => [a.questionId, a]))`
and `useState(initialTimeSpent || 0)`. -/
def resumeExam (saved : SavedExam) : ExamState :=
  { questions := saved.questions
    currentIdx := jsOrZero saved.currentIdx
    answers := buildAnswersMap saved.answers
    elapsed := jsOrZero saved.timeSpent }

/-! ## Session controller state machine (src/App.tsx)

User-triggered transitions of the root component, together with the
`codequest_saved_exam` localStorage slot (tracked as a boolean: present or
absent).  `handleExamComplete` is the only handler that removes the slot;
`handleSaveExam` is the only one that writes it.  `handleResumeExam` and
`handleRestart` do not touch it.  An event is only available in the screen
that renders its button, so `step` is partial: events fired in the wrong
state do not occur. -/

inductive Event where
  | start_ok        -- handleStartExam, generation succeeds
  | start_fail      -- handleStartExam, generation fails (alert, back to SETUP)
  | save            -- Save & Exit: handleSave / handleSaveExam
  | resume          -- SetupForm resume button: handleResumeExam
  | complete        -- Submit or timeout: handleSubmitAll / handleExamComplete
  | restart         -- ResultsView: handleRestart
  | viewProgress    -- SetupForm: onViewProgress
  | back            -- ProgressView: onBack
deriving DecidableEq, Repr, Fintype

structure AppSt where
  appState : AppState
  snapshot : Bool     -- codequest_saved_exam slot present?
deriving DecidableEq, Repr, Fintype

def step (s : AppSt) (e : Event) : Option AppSt :=
  match e, s.appState with
  | .start_ok, .SETUP => some { s with appState := .EXAM }
  | .start_fail, .SETUP => some { s with appState := .SETUP }
  | .save, .EXAM => some { appState := .SETUP, snapshot := true }
  | .resume, .SETUP =>
      -- handleResumeExam returns early when the slot is empty and does not
      -- clear the slot when it is present.
      some (if s.snapshot then { s with appState := .EXAM } else s)
  | .complete, .EXAM =>
      some { appState := .RESULTS, snapshot := false }  -- localStorage.removeItem
  | .restart, .RESULTS => some { s with appState := .SETUP }
  | .viewProgress, .SETUP => some { s with appState := .PROGRESS }
  | .back, .PROGRESS => some { s with appState := .SETUP }
  | _, _ => none

def runFrom (s : AppSt) : List Event → Option AppSt
  | [] => some s
  | e :: rest =>
    match step s e with
    | none => none
    | some s' => runFrom s' rest

/-- The spec's claimed condition for snapshot presence after a trace: the user
saved and has not since resumed, completed, or restarted. -/
def claimSnapshotPresent (b0 : Bool) (t : List Event) : Bool :=
  t.foldl
    (fun b e =>
      match e with
      | .save => true
      | .resume => false
      | .complete => false
      | .restart => false
      | _ => b)
    b0

/-- The condition the code actually maintains: the user saved and has not
since completed an exam. -/
def codeSnapshotPresent (b0 : Bool) (t : List Event) : Bool :=
  t.foldl
    (fun b e =>
      match e with
      | .save => true
      | .complete => false
      | _ => b)
    b0

/-- One-event effect on the persistence slot: save writes it, completion
clears it, everything else leaves it alone. -/
def snapTrack (b : Bool) (e : Event) : Bool :=
  match e with
  | .save => true
  | .complete => false
  | _ => b

/-! ## Starting an exam (src/App.tsx, `handleStartExam`) -/

/-- Top-level React state of the root `App` component. -/
structure AppFull where
  appState : AppState
  questions : List Question
  config : Option ExamConfig
  userAnswers : List UserAnswer
  timeSpent : Nat
  initialAnswers : List UserAnswer
  initialTimeSpent : Nat
  initialIdx : Nat
deriving DecidableEq, Repr

def initialAppFull : AppFull :=
  { appState := .SETUP
    questions := []
    config := none
    userAnswers := []
    timeSpent := 0
    initialAnswers := []
    initialTimeSpent := 0
    initialIdx := 0 }

inductive GenOutcome where
  | ok (qs : List Question)
  | fail
deriving DecidableEq, Repr

/-- `handleStartExam`: store the config, enter LOADING, clear the resume
state, then await generation; on success store the questions and enter EXAM,
on failure alert the user and go back to SETUP. -/
def handleStartExam (s : AppFull) (cfg : ExamConfig) (g : GenOutcome) : AppFull :=
  let s' := { s with
    config := some cfg
    appState := AppState.LOADING
    initialAnswers := []
    initialTimeSpent := 0
    initialIdx := 0 }
  match g with
  | .ok qs => { s' with questions := qs, appState := AppState.EXAM }
  | .fail => { s' with appState := AppState.SETUP }

/-! ## Ledger operations for the reachability invariant (C9) -/

/-- One user interaction with the answer ledger; `i` is the current question
index (navigation lets the user move it freely within bounds; an
out-of-range index has no corresponding question card and is modelled as a
no-op). -/
inductive LedgerOp where
  | select (i : Nat) (optId : String)
  | codeEdit (i : Nat) (code : String)
  | runCode (i : Nat) (code : String) (o : JudgeOutcome)
  | resetCode (i : Nat)
  | genTests (i : Nat) (o : TestGenOutcome)
deriving DecidableEq, Repr

def applyLedgerOp (questions : List Question) (m : AnswersMap) : LedgerOp → AnswersMap
  | .select i optId =>
    match questions[i]? with
    | none => m
    | some q => handleOptionSelect m q optId
  | .codeEdit i code =>
    match questions[i]? with
    | none => m
    | some q => handleCodeChange m q code
  | .runCode i code o =>
    match questions[i]? with
    | none => m
    | some q => handleRunCode m q code o
  | .resetCode i =>
    match questions[i]? with
    | none => m
    | some q => handleResetCode m q
  | .genTests i o =>
    match questions[i]? with
    | none => m
    | some q => handleGenerateTestCases m q o

def runLedgerOps (questions : List Question) (ops : List LedgerOp) : AnswersMap :=
  ops.foldl (applyLedgerOp questions) []

/-- Ledger well-formedness: distinct keys, every entry's answer is keyed by
its own question id, and every key is the id of a question of the session. -/
def LedgerInv (questions : List Question) (m : AnswersMap) : Prop :=
  (m.map Prod.fst).Nodup ∧
    ∀ p ∈ m, p.2.questionId = p.1 ∧ ∃ q ∈ questions, q.id = p.1

/-! ## Ledger invariant lemmas -/

theorem mapLookup_mem {m : AnswersMap} {k : String} {a : UserAnswer}
    (h : mapLookup m k = some a) : (k, a) ∈ m := by
  induction m with
  | nil => simp [mapLookup] at h
  | cons p rest ih =>
    by_cases hp : p.1 = k
    · simp only [mapLookup, if_pos hp, Option.some.injEq] at h
      subst h; subst hp
      exact List.mem_cons_self _ _
    · simp only [mapLookup, if_neg hp] at h
      exact List.mem_cons_of_mem _ (ih h)

theorem getD_questionId {questions : List Question} {m : AnswersMap} {k : String}
    (hinv : LedgerInv questions m) :
    ((mapLookup m k).getD { questionId := k }).questionId = k := by
  cases h : mapLookup m k with
  | none => rfl
  | some a =>
    have := (hinv.2 (k, a) (mapLookup_mem h)).1
    simpa using this

theorem ledgerInv_mapSet {questions : List Question} {m : AnswersMap}
    {k : String} {v : UserAnswer}
    (hinv : LedgerInv questions m)
    (hk : ∃ q ∈ questions, q.id = k)
    (hv : v.questionId = k) :
    LedgerInv questions (mapSet m k v) := by
  constructor
  · rw [mapSet_keys]
    by_cases hmem : k ∈ m.map Prod.fst
    · simpa [hmem] using hinv.1
    · simp only [hmem, if_neg, ite_false]
      simp [List.nodup_append, hinv.1, hmem]
  · intro p hp
    rcases mem_mapSet hp with h | h
    · subst h; exact ⟨hv, hk⟩
    · exact hinv.2 p h

theorem ledgerInv_applyLedgerOp {questions : List Question} {m : AnswersMap}
    (hinv : LedgerInv questions m) (op : LedgerOp) :
    LedgerInv questions (applyLedgerOp questions m op) := by
  have hq : ∀ {i : Nat} {q : Question}, questions[i]? = some q →
      ∃ q' ∈ questions, q'.id = q.id :=
    fun h => ⟨_, List.getElem?_mem h, rfl⟩
  cases op with
  | select i optId =>
    simp only [applyLedgerOp]
    cases h : questions[i]? with
    | none => exact hinv
    | some q =>
      simp only [handleOptionSelect]
      exact ledgerInv_mapSet hinv (hq h) rfl
  | codeEdit i code =>
    simp only [applyLedgerOp]
    cases h : questions[i]? with
    | none => exact hinv
    | some q =>
      simp only [handleCodeChange]
      exact ledgerInv_mapSet hinv (hq h) (getD_questionId hinv)
  | runCode i code o =>
    simp only [applyLedgerOp]
    cases h : questions[i]? with
    | none => exact hinv
    | some q =>
      simp only [handleRunCode]
      by_cases hc : isBlank code
      · simpa [hc] using hinv
      · simp only [hc, if_neg, ite_false]
        exact ledgerInv_mapSet hinv (hq h) (getD_questionId hinv)
  | resetCode i =>
    simp only [applyLedgerOp]
    cases h : questions[i]? with
    | none => exact hinv
    | some q =>
      simp only [handleResetCode]
      exact ledgerInv_mapSet hinv (hq h) (getD_questionId hinv)
  | genTests i o =>
    simp only [applyLedgerOp]
    cases h : questions[i]? with
    | none => exact hinv
    | some q =>
      simp only [handleGenerateTestCases]
      exact ledgerInv_mapSet hinv (hq h) (getD_questionId hinv)

theorem ledgerInv_runLedgerOps (questions : List Question) (ops : List LedgerOp) :
    LedgerInv questions (runLedgerOps questions ops) := by
  suffices h : ∀ m, LedgerInv questions m →
      LedgerInv questions (ops.foldl (applyLedgerOp questions) m) by
    exact h [] ⟨List.nodup_nil, by simp⟩
  induction ops with
  | nil => intro m hm; exact hm
  | cons op rest ih =>
    intro m hm
    exact ih _ (ledgerInv_applyLedgerOp hm op)

theorem nodup_keys_length_le {keys ids : List String}
    (hnd : keys.Nodup) (hsub : ∀ x ∈ keys, x ∈ ids) :
    keys.length ≤ ids.length := by
  calc keys.length = keys.toFinset.card := (List.toFinset_card_of_nodup hnd).symm
    _ ≤ ids.toFinset.card := by
        apply Finset.card_le_card
        intro x hx
        rw [List.mem_toFinset] at hx ⊢
        exact hsub x hx
    _ ≤ ids.length := List.toFinset_card_le ids

/-- C9: at every state reachable by any sequence of ledger operations (option
selection, code edit, run/judge result storage, test-case generation, code
reset) on a session started with an empty ledger, the ledger holds exactly one
answer per question identity (its keys are pairwise distinct), every key is
the identity of some question of the session, and the ledger's size is at most
the question-set size. -/
theorem C9_ledger_invariant (questions : List Question) (ops : List LedgerOp) :
    ((runLedgerOps questions ops).map Prod.fst).Nodup ∧
    (∀ p ∈ runLedgerOps questions ops, ∃ q ∈ questions, q.id = p.1) ∧
    (runLedgerOps questions ops).length ≤ questions.length := by
  have hinv := ledgerInv_runLedgerOps questions ops
  refine ⟨hinv.1, fun p hp => (hinv.2 p hp).2, ?_⟩
  have hlen : (runLedgerOps questions ops).length
      = ((runLedgerOps questions ops).map Prod.fst).length := by simp
  rw [hlen]
  have : questions.length = (questions.map Question.id).length := by simp
  rw [this]
  apply nodup_keys_length_le hinv.1
  intro x hx
  rcases List.mem_map.mp hx with ⟨p, hp, hpx⟩
  rcases (hinv.2 p hp).2 with ⟨q, hq, hqid⟩
  exact List.mem_map.mpr ⟨q, hq, by rw [hqid, hpx]⟩

/-! ## C2: save / resume round trip -/

theorem jsOrZero_eq (n : Nat) : jsOrZero n = n := by
  unfold jsOrZero; split <;> omega

/-- C2: for every in-progress session state (question set, answer ledger,
elapsed time, current question index) whose ledger is well-formed (keys are
the answers' question ids, pairwise distinct — which holds at every reachable
state, `C9_ledger_invariant`), saving and then resuming yields a session whose
question set, answer ledger, elapsed time, and current question index are
identical to the saved ones. -/
theorem C2_save_resume_roundtrip (s : ExamState) (cfg : ExamConfig) (savedAt : String)
    (hk : ∀ p ∈ s.answers, p.2.questionId = p.1)
    (hnd : (s.answers.map Prod.fst).Nodup) :
    resumeExam (handleSaveExam cfg savedAt s) = s := by
  cases s with
  | mk questions currentIdx answers elapsed =>
    simp only [resumeExam, handleSaveExam, jsOrZero_eq, ExamState.mk.injEq]
    exact ⟨trivial, trivial, buildAnswersMap_values answers hk hnd, trivial⟩

def exQuestion1 : Question :=
  { id := "q1", type := QuestionType.MCQ,
    options := some [⟨"a", "A"⟩, ⟨"b", "B"⟩], correctOptionId := some "a" }

def exAnswer1 : UserAnswer := { questionId := "q1", selectedOptionId := some "a" }

def exConfig : ExamConfig :=
  { topic := "arrays", difficulty := Difficulty.Beginner, questionCount := 1,
    examType := ExamType.MCQ, timeLimit := 0 }

def exState : ExamState :=
  { questions := [exQuestion1], currentIdx := 0,
    answers := [("q1", exAnswer1)], elapsed := 42 }

theorem C2_save_resume_roundtrip_witness :
    resumeExam (handleSaveExam exConfig "2026-01-01" exState) = exState :=
  C2_save_resume_roundtrip exState exConfig "2026-01-01" (by decide) (by decide)

/-! ## C3: snapshot-slot invariant of the session controller -/

theorem step_snapshot_map : ∀ (s : AppSt) (e : Event),
    (step s e).map AppSt.snapshot = (step s e).map (fun _ => snapTrack s.snapshot e) := by
  decide

theorem codeSnapshotPresent_cons (b : Bool) (e : Event) (t : List Event) :
    codeSnapshotPresent b (e :: t) = codeSnapshotPresent (snapTrack b e) t := by
  cases e <;> rfl

theorem runFrom_snapshot :
    ∀ (t : List Event) (s0 s : AppSt), runFrom s0 t = some s →
      s.snapshot = codeSnapshotPresent s0.snapshot t := by
  intro t
  induction t with
  | nil =>
    intro s0 s h
    simp only [runFrom, Option.some.injEq] at h
    subst h; rfl
  | cons e rest ih =>
    intro s0 s h
    simp only [runFrom] at h
    cases hstep : step s0 e with
    | none =>
      rw [hstep] at h
      exact Option.noConfusion h
    | some s1 =>
      rw [hstep] at h
      have hmap := step_snapshot_map s0 e
      rw [hstep] at hmap
      simp only [Option.map_some'] at hmap
      have h1 : s1.snapshot = snapTrack s0.snapshot e := Option.some.inj hmap
      rw [codeSnapshotPresent_cons, ← h1]
      exact ih s1 s h

/-- C3 counterexample: after the legal trace start–save–resume the persisted
slot is still occupied (the code never clears it on resume), while the claim
demands that a resume leave no snapshot. -/
theorem C3_counterexample :
    (runFrom ⟨AppState.SETUP, false⟩
        [Event.start_ok, Event.save, Event.resume]).map AppSt.snapshot = some true ∧
    claimSnapshotPresent false [Event.start_ok, Event.save, Event.resume] = false := by
  decide

/-- C3 amended: at every reachable state of the session controller, the
persisted snapshot exists if and only if the user explicitly saved and has not
since completed an exam.  Saving creates the snapshot and completion removes
it; resume and restart leave the slot untouched. -/
theorem C3_snapshot_invariant (s0 : AppSt) (t : List Event) (s : AppSt)
    (h : runFrom s0 t = some s) :
    s.snapshot = codeSnapshotPresent s0.snapshot t :=
  runFrom_snapshot t s0 s h

theorem C3_snapshot_invariant_witness :
    ∃ s : AppSt, runFrom ⟨AppState.SETUP, false⟩ [Event.start_ok, Event.save] = some s ∧
      s.snapshot = codeSnapshotPresent false [Event.start_ok, Event.save] :=
  ⟨⟨AppState.SETUP, true⟩, by decide,
    C3_snapshot_invariant ⟨AppState.SETUP, false⟩ [Event.start_ok, Event.save]
      ⟨AppState.SETUP, true⟩ (by decide)⟩

/-! ## C4: the auto-submit fires exactly once -/

theorem runTicks_no_limit (e s n : Nat) : runTicks 0 e s n = (e + n, s) := by
  induction n generalizing e s with
  | zero => simp [runTicks]
  | succ n ih =>
    simp only [runTicks]
    have he' : tickElapsed 0 e = e + 1 := by
      unfold tickElapsed; rw [if_neg (by omega)]
    rw [he', if_neg (by omega), ih, show e + 1 + n = e + (n + 1) from by omega]

theorem runTicks_at_limit (L e s n : Nat) (hL : 0 < L) (he : L * 60 ≤ e) :
    runTicks L e s n = (e, s) := by
  induction n with
  | zero => simp [runTicks]
  | succ n ih =>
    simp only [runTicks]
    have he' : tickElapsed L e = e := by
      unfold tickElapsed; rw [if_pos ⟨hL, he⟩]
    rw [he', if_neg (by simp)]
    exact ih

theorem runTicks_below_limit (L : Nat) (hL : 0 < L) :
    ∀ (n e s : Nat), e < L * 60 →
      runTicks L e s n =
        (min (e + n) (L * 60), s + if L * 60 ≤ e + n then 1 else 0) := by
  intro n
  induction n with
  | zero =>
    intro e s he
    simp only [runTicks, Nat.add_zero]
    rw [if_neg (by omega), min_eq_left (by omega), Nat.add_zero]
  | succ n ih =>
    intro e s he
    simp only [runTicks]
    have he' : tickElapsed L e = e + 1 := by
      unfold tickElapsed; rw [if_neg (by omega)]
    rw [he']
    rcases Nat.lt_or_ge (e + 1) (L * 60) with hcase | hcase
    · rw [if_neg (by omega), ih (e + 1) s hcase,
        show e + 1 + n = e + (n + 1) from by omega]
    · rw [if_pos (by omega),
        runTicks_at_limit L (e + 1) (s + 1) n hL (by omega),
        min_eq_right (by omega), if_pos (by omega),
        show e + 1 = L * 60 from by omega]

/-- C4: for every session with a positive configured time limit whose elapsed
time starts below the limit, the automatic submission fires exactly once —
on the tick at which elapsed time reaches `timeLimit * 60` seconds — and never
again on later ticks; with a time limit of zero it never fires.
`autoSubmitCount` counts every firing of the auto-submit effect over the mount
and `n` subsequent timer ticks. -/
theorem C4_auto_submit (L e0 n : Nat) :
    (0 < L → e0 < L * 60 →
      autoSubmitCount L e0 n = if L * 60 ≤ e0 + n then 1 else 0) ∧
    (L = 0 → autoSubmitCount L e0 n = 0) := by
  constructor
  · intro hL he
    unfold autoSubmitCount
    rw [if_neg (by omega), runTicks_below_limit L hL n e0 0 he]
    simp
  · intro h
    subst h
    unfold autoSubmitCount
    rw [if_neg (by omega), runTicks_no_limit]
    simp

theorem C4_auto_submit_witness :
    autoSubmitCount 1 0 120 = 1 ∧ autoSubmitCount 0 5 7 = 0 := by
  constructor
  · have h := (C4_auto_submit 1 0 120).1 (by omega) (by omega)
    rw [h, if_pos (by omega)]
  · exact (C4_auto_submit 0 5 7).2 rfl

/-! ## C1 / C10: the scorer -/

/-- Per-question correctness in the words of the claim: option-match for
choice questions; for code questions the judged-correctness flag attached to
the answer, with an answer holding no submitted code scored as incorrect. -/
def claimCorrect (questions : List Question) (a : UserAnswer) : Bool :=
  match questions.find? (fun q => q.id = a.questionId) with
  | none => false
  | some q =>
    if q.type = QuestionType.MCQ then a.selectedOptionId = q.correctOptionId
    else
      match a.code with
      | none => false
      | some _ => a.isCorrect = some true

theorem foldl_if_count {α : Type _} (f : Nat → α → Nat) (p : α → Bool)
    (hf : ∀ n a, f n a = if p a then n + 1 else n) :
    ∀ (l : List α) (n : Nat), l.foldl f n = n + l.countP p := by
  intro l
  induction l with
  | nil => intro n; simp
  | cons a t ih =>
    intro n
    rw [List.foldl_cons, hf, List.countP_cons, ih]
    by_cases hp : p a
    · simp [hp]; omega
    · simp [hp]

theorem resultsScore_eq_countP (qs : List Question) (ans : List UserAnswer) :
    resultsScore qs ans = ans.countP (resultsViewCorrect qs) := by
  unfold resultsScore
  refine (foldl_if_count _ (resultsViewCorrect qs) ?_ ans 0).trans (Nat.zero_add _)
  intro n a
  dsimp only
  unfold resultsViewCorrect
  cases h : qs.find? (fun q => q.id = a.questionId) with
  | none => simp
  | some q => by_cases ht : q.type = QuestionType.MCQ <;> simp [ht]

theorem resultsViewCorrect_eq_claimCorrect {qs : List Question} {a : UserAnswer}
    (hc : a.isCorrect = some true → a.code ≠ none) :
    resultsViewCorrect qs a = claimCorrect qs a := by
  unfold resultsViewCorrect claimCorrect
  cases h : qs.find? (fun q => q.id = a.questionId) with
  | none => rfl
  | some q =>
    by_cases ht : q.type = QuestionType.MCQ
    · simp [ht]
    · simp only [ht, ite_false, if_neg]
      cases hcode : a.code with
      | some c => rfl
      | none =>
        have hnc : a.isCorrect ≠ some true := fun h' => (hc h') hcode
        simp [hnc]

/-- C1: for every completed session with at least one question whose answers
come from a reachable ledger (where a judged-correct answer always carries its
submitted code), the recorded score equals the number of answers whose
computed correctness — option-match for choice questions, the attached
judged flag for code questions, incorrect when no code was submitted — is
true, and the recorded percentage equals `round(100 * score / totalQuestions)`
with JavaScript `Math.round` semantics. -/
theorem C1_score_and_percentage (qs : List Question) (ans : List UserAnswer)
    (hne : qs ≠ [])
    (hcode : ∀ a ∈ ans, a.isCorrect = some true → a.code ≠ none) :
    resultsScore qs ans = ans.countP (claimCorrect qs) ∧
    resultsPercentage qs ans =
      some (jsRound (100 * (ans.countP (claimCorrect qs) : ℚ) / (qs.length : ℚ))) := by
  have hsc : resultsScore qs ans = ans.countP (claimCorrect qs) := by
    rw [resultsScore_eq_countP]
    refine List.countP_congr ?_
    intro a ha
    rw [resultsViewCorrect_eq_claimCorrect (hcode a ha)]
  refine ⟨hsc, ?_⟩
  unfold resultsPercentage
  rw [if_neg (fun h => hne (List.length_eq_zero.mp h)), hsc]
  congr 1
  unfold jsRound
  congr 1
  ring

def exQuestionsC1 : List Question :=
  [{ id := "q1", type := QuestionType.MCQ, correctOptionId := some "a" },
   { id := "q2", type := QuestionType.MCQ, correctOptionId := some "a" },
   { id := "q3", type := QuestionType.MCQ, correctOptionId := some "a" }]

def exAnswersC1 : List UserAnswer :=
  [{ questionId := "q1", selectedOptionId := some "a" },
   { questionId := "q2", selectedOptionId := some "a" },
   { questionId := "q3", selectedOptionId := some "b" }]

theorem C1_score_and_percentage_witness :
    resultsScore exQuestionsC1 exAnswersC1 =
      exAnswersC1.countP (claimCorrect exQuestionsC1) ∧
    resultsPercentage exQuestionsC1 exAnswersC1 =
      some (jsRound (100 * (exAnswersC1.countP (claimCorrect exQuestionsC1) : ℚ) /
        (exQuestionsC1.length : ℚ))) :=
  C1_score_and_percentage exQuestionsC1 exAnswersC1 (by decide) (by decide)

/-- C10: the scorer guards nothing: with at least one question and a
well-formed ledger at completion, the score is at most the question count and
the rounded percentage lies between 0 and 100; with zero questions the
percentage expression divides by zero and yields no number. -/
theorem C10_percentage_bounds (qs : List Question) (ans : List UserAnswer) :
    (qs = [] → resultsPercentage qs ans = none) ∧
    (qs ≠ [] →
      (ans.map UserAnswer.questionId).Nodup →
      (∀ a ∈ ans, ∃ q ∈ qs, q.id = a.questionId) →
      resultsScore qs ans ≤ qs.length ∧
      ∃ p : ℤ, resultsPercentage qs ans = some p ∧ 0 ≤ p ∧ p ≤ 100) := by
  constructor
  · intro h
    subst h
    rfl
  · intro hne hnd hmem
    have hscore : resultsScore qs ans ≤ qs.length := by
      calc resultsScore qs ans = ans.countP (resultsViewCorrect qs) :=
            resultsScore_eq_countP qs ans
        _ ≤ ans.length := List.countP_le_length _
        _ = (ans.map UserAnswer.questionId).length := by simp
        _ ≤ (qs.map Question.id).length := by
            apply nodup_keys_length_le hnd
            intro x hx
            rcases List.mem_map.mp hx with ⟨a, ha, hax⟩
            rcases hmem a ha with ⟨q, hq, hqa⟩
            exact List.mem_map.mpr ⟨q, hq, by rw [hqa, hax]⟩
        _ = qs.length := by simp
    refine ⟨hscore, ?_⟩
    have hlen0 : qs.length ≠ 0 := fun h => hne (List.length_eq_zero.mp h)
    have htq : (0 : ℚ) < (qs.length : ℚ) := by
      exact_mod_cast Nat.pos_of_ne_zero hlen0
    set x : ℚ := (resultsScore qs ans : ℚ) / (qs.length : ℚ) * 100 with hx
    have hx0 : 0 ≤ x := by positivity
    have hx100 : x ≤ 100 := by
      have hdiv : (resultsScore qs ans : ℚ) / (qs.length : ℚ) ≤ 1 :=
        (div_le_one htq).mpr (by exact_mod_cast hscore)
      calc x ≤ 1 * 100 := by
            rw [hx]
            exact mul_le_mul_of_nonneg_right hdiv (by norm_num)
        _ = 100 := by norm_num
    refine ⟨jsRound x, ?_, ?_, ?_⟩
    · unfold resultsPercentage
      rw [if_neg hlen0]
    · unfold jsRound
      rw [Int.floor_nonneg]
      positivity
    · unfold jsRound
      have : ⌊x + 1 / 2⌋ < 101 := by
        rw [Int.floor_lt]
        push_cast
        linarith
      omega

theorem C10_percentage_bounds_witness :
    resultsPercentage ([] : List Question) exAnswersC1 = none ∧
    (resultsScore exQuestionsC1 exAnswersC1 ≤ exQuestionsC1.length ∧
      ∃ p : ℤ, resultsPercentage exQuestionsC1 exAnswersC1 = some p ∧
        0 ≤ p ∧ p ≤ 100) :=
  ⟨(C10_percentage_bounds [] exAnswersC1).1 rfl,
   (C10_percentage_bounds exQuestionsC1 exAnswersC1).2 (by decide) (by decide)
     (by decide)⟩

/-! ## C5: `isAnswered` versus the editor placeholder -/

def exCodeQuestion : Question :=
  { id := "c1", type := QuestionType.CODE, language := some CodeLanguage.PYTHON }

/-- C5 counterexample: resetting the code of a code question with no starter
code creates an answer whose code field holds exactly the editor's
placeholder text and no selected option, yet `isAnswered` returns `true`
(the placeholder is 22 characters, well past the `> 5` threshold), where the
claim requires `false`. -/
theorem C5_counterexample :
    mapLookup (handleResetCode [] exCodeQuestion) "c1" =
      some { questionId := "c1", code := some "# Start your code here" } ∧
    ("# Start your code here" = placeholderCode exCodeQuestion) ∧
    isAnswered (handleResetCode [] exCodeQuestion) "c1" = true := by
  refine ⟨rfl, rfl, ?_⟩
  decide

/-- C5 amended: `isAnswered(questionId)` returns true exactly when an answer
exists with a selected option or with code text longer than 5 characters; in
particular a freshly created answer holding only the placeholder text counts
as answered (the placeholder texts are 22 and 23 characters long), and
`isAnswered` is false only for an absent answer or one with neither a
selection nor more than 5 characters of code. -/
theorem C5_isAnswered_characterization (m : AnswersMap) (qId : String) :
    isAnswered m qId = true ↔
      ∃ a, mapLookup m qId = some a ∧
        (a.selectedOptionId ≠ none ∨ ∃ c, a.code = some c ∧ 5 < c.length) := by
  unfold isAnswered
  cases h : mapLookup m qId with
  | none => simp
  | some a =>
    cases hsel : a.selectedOptionId with
    | some o => simp [hsel]
    | none =>
      cases hcode : a.code with
      | none => simp [hsel, hcode]
      | some c => simp [hsel, hcode]

theorem C5_isAnswered_characterization_witness :
    isAnswered (handleResetCode [] exCodeQuestion) "c1" = true ↔
      ∃ a, mapLookup (handleResetCode [] exCodeQuestion) "c1" = some a ∧
        (a.selectedOptionId ≠ none ∨ ∃ c, a.code = some c ∧ 5 < c.length) :=
  C5_isAnswered_characterization (handleResetCode [] exCodeQuestion) "c1"

/-! ## C6 / C7: judging failure -/

theorem gradeCodeSubmission_failure {o : JudgeOutcome}
    (ho : o = JudgeOutcome.noText ∨ o = JudgeOutcome.throws) :
    gradeCodeSubmission o = fallbackGradingResult := by
  rcases ho with h | h <;> subst h <;> rfl

theorem handleRunCode_failure (m : AnswersMap) (q : Question) (userCode : String)
    (o : JudgeOutcome)
    (ho : o = JudgeOutcome.noText ∨ o = JudgeOutcome.throws)
    (hcode : isBlank userCode = false) :
    mapLookup (handleRunCode m q userCode o) q.id =
      some { (mapLookup m q.id).getD { questionId := q.id } with
             code := some userCode
             isCorrect := some false
             feedback := some "System error during grading."
             output := some "Error connecting to Judge AI." } := by
  unfold handleRunCode
  rw [hcode, if_neg (by simp), gradeCodeSubmission_failure ho]
  exact mapLookup_mapSet_self m q.id _

/-- C6 counterexample: a failing judging call does not leave the answer record
unchanged — `handleRunCode` stores the submitted code together with the
fallback grading result on the answer (here the record springs into existence
where none was before). -/
theorem C6_counterexample :
    mapLookup (handleRunCode [] exCodeQuestion "x = 1" JudgeOutcome.throws) "c1" =
      some { questionId := "c1", code := some "x = 1",
             isCorrect := some false,
             feedback := some "System error during grading.",
             output := some "Error connecting to Judge AI." } ∧
    mapLookup ([] : AnswersMap) "c1" = none := by
  constructor
  · decide
  · rfl

/-- C6 amended: when a `submitForJudging` (Run/Submit) call fails, the error is
confined to the operation — no exception reaches the session — but the
answer record is updated, not left unchanged: its code becomes the submitted
text and its judged correctness, feedback and output become the fixed
fallback values (`false`, the fixed feedback and output strings); every other
field keeps its previous value. -/
theorem C6_failure_updates_answer (m : AnswersMap) (q : Question)
    (userCode : String) (o : JudgeOutcome)
    (ho : o = JudgeOutcome.noText ∨ o = JudgeOutcome.throws)
    (hcode : isBlank userCode = false) :
    mapLookup (handleRunCode m q userCode o) q.id =
      some { (mapLookup m q.id).getD { questionId := q.id } with
             code := some userCode
             isCorrect := some false
             feedback := some "System error during grading."
             output := some "Error connecting to Judge AI." } :=
  handleRunCode_failure m q userCode o ho hcode

theorem C6_failure_updates_answer_witness :
    mapLookup (handleRunCode [] exCodeQuestion "x = 1" JudgeOutcome.throws)
        exCodeQuestion.id =
      some { (mapLookup [] exCodeQuestion.id).getD
               { questionId := exCodeQuestion.id } with
             code := some "x = 1"
             isCorrect := some false
             feedback := some "System error during grading."
             output := some "Error connecting to Judge AI." } :=
  C6_failure_updates_answer [] exCodeQuestion "x = 1" JudgeOutcome.throws
    (Or.inr rfl) (by decide)

/-- C7: every judging call that throws or returns no text produces the fixed
fallback result (`passed := false` with the fixed feedback and output texts)
in place of the error — the failure is never propagated as an exception (the
`catch` makes `gradeCodeSubmission` total) — and the affected answer's stored
feedback equals the fixed fallback text while its judged correctness is
`false`. -/
theorem C7_judge_failure_fallback (o : JudgeOutcome)
    (ho : o = JudgeOutcome.noText ∨ o = JudgeOutcome.throws) :
    gradeCodeSubmission o = fallbackGradingResult ∧
    ∀ (m : AnswersMap) (q : Question) (userCode : String),
      isBlank userCode = false →
      (mapLookup (handleRunCode m q userCode o) q.id).map UserAnswer.feedback =
        some (some "System error during grading.") ∧
      (mapLookup (handleRunCode m q userCode o) q.id).map UserAnswer.isCorrect =
        some (some false) := by
  refine ⟨gradeCodeSubmission_failure ho, ?_⟩
  intro m q userCode hcode
  rw [handleRunCode_failure m q userCode o ho hcode]
  constructor <;> rfl

theorem C7_judge_failure_fallback_witness :
    gradeCodeSubmission JudgeOutcome.throws = fallbackGradingResult ∧
    (mapLookup (handleRunCode [] exCodeQuestion "y = 2" JudgeOutcome.throws)
        exCodeQuestion.id).map UserAnswer.feedback =
      some (some "System error during grading.") := by
  have h := C7_judge_failure_fallback JudgeOutcome.throws (Or.inr rfl)
  exact ⟨h.1, (h.2 [] exCodeQuestion "y = 2" (by decide)).1⟩

/-! ## C8: generation failure -/

/-- C8 counterexample: starting from the pristine Setup state (no stored
configuration), a failed generation returns to Setup but leaves the
configuration created by the failed start in place — `handleStartExam` stores
it before the call and never resets it in the catch branch — so some state
created by the failed start does survive the transition back to Setup. -/
theorem C8_counterexample :
    (handleStartExam initialAppFull exConfig GenOutcome.fail).appState =
      AppState.SETUP ∧
    initialAppFull.config = none ∧
    (handleStartExam initialAppFull exConfig GenOutcome.fail).config =
      some exConfig := by
  exact ⟨rfl, rfl, rfl⟩

/-- C8 amended: on generation failure the controller returns from Loading to
Setup with a user-visible message; the question set and recorded answers are
untouched and the resume state is cleared, but the configuration stored at the
start of the attempt is retained (the catch branch never resets it). -/
theorem C8_generation_failure (s : AppFull) (cfg : ExamConfig) :
    handleStartExam s cfg GenOutcome.fail =
      { appState := AppState.SETUP
        questions := s.questions
        config := some cfg
        userAnswers := s.userAnswers
        timeSpent := s.timeSpent
        initialAnswers := []
        initialTimeSpent := 0
        initialIdx := 0 } := rfl

theorem C8_generation_failure_witness :
    handleStartExam initialAppFull exConfig GenOutcome.fail =
      { appState := AppState.SETUP
        questions := initialAppFull.questions
        config := some exConfig
        userAnswers := initialAppFull.userAnswers
        timeSpent := initialAppFull.timeSpent
        initialAnswers := []
        initialTimeSpent := 0
        initialIdx := 0 } :=
  C8_generation_failure initialAppFull exConfig

theorem C9_ledger_invariant_witness :
    ((runLedgerOps exQuestionsC1 [LedgerOp.select 0 "a"]).map Prod.fst).Nodup ∧
    (∀ p ∈ runLedgerOps exQuestionsC1 [LedgerOp.select 0 "a"],
      ∃ q ∈ exQuestionsC1, q.id = p.1) ∧
    (runLedgerOps exQuestionsC1 [LedgerOp.select 0 "a"]).length ≤
      exQuestionsC1.length :=
  C9_ledger_invariant exQuestionsC1 [LedgerOp.select 0 "a"]

end CodeQuest
